import Mathlib

/-!
# Verification of the html-components library

A shallow embedding, in Lean 4, of the templating / reactive-state core of the
html-components client-side component loader, together with theorems settling
the specification claims about it.

The repository ships several full-file variants of the same library.  The
embedding below covers:

* the "Enhanced" variant (the first document of `src/unnamed/part_004`):
  its template engine (`processTemplate` at lines 845-886, with
  `evaluateExpression` at 888-900) and its reactive state system
  (`stateSystem`, lines 660-842);
* the base variant (`src/html-components.js`): its substitution-only
  `processTemplate` (lines 471-481), its component loader
  `loadComponentIntoElement` (lines 354-405) with the file cache and the
  loading guard set, its `processComponentDefinition` (lines 625-655) and the
  page-cache key computation of `buildPageFromComponents` (line 597).

Modelling conventions:

* JavaScript values are modelled by the inductive `Val`.  Numbers are
  modelled as integers (every number appearing in the claims is an integer;
  floating point and `NaN` are not needed).  JavaScript strict equality
  `===` on objects and arrays is reference equality; the model (`jsStrictEq`)
  treats two composite values as never strictly equal, which is faithful
  whenever the compared value is a freshly constructed literal, as in all the
  claims.
* JavaScript objects used as string-keyed maps (`Map`, spread-merged
  contexts) are modelled as association lists.  For contexts the first
  matching entry wins, so the JavaScript merge `{...props, ...state}` (later
  spread wins) is modelled by listing `state` before `props`.
* Templates of the Enhanced engine are modelled as lists of well-nested
  block nodes (`TNode`), the parse that the engine's regular expressions
  perform on templates whose same-kind blocks are not nested inside each
  other.  The three regex passes of the source (conditionals, then loops,
  then variable substitution) are modelled by `condPassL` followed by
  `renderL`; the per-iteration re-entry `processTemplate(content, itemCtx)`
  of the loop pass re-runs the conditional pass on a body from which the
  first pass has already removed every conditional block, so that re-run is
  the identity there (`condPassL_eq_of_noIf` / `noIf_condPassL` below prove
  this), and `renderL` omits it.
* DOM elements are identified by natural numbers; the DOM, the fetch
  collaborator and the `querySelectorAll('[data-component]')` discovery of
  nested component references are modelled explicitly in `World` / `LoadEnv`.
* Logging, CSS/script side-loading, event-handler binding and the
  notification UI are thin browser plumbing outside the claims; they are
  omitted from the model (the points where the source calls them are noted
  in the doc comments of the corresponding definitions).
-/

/-- A JavaScript runtime value, as far as the claims need one: `undefined`,
`null`, booleans, (integer) numbers, strings, arrays and plain objects. -/
inductive Val where
  | undefined : Val
  | null : Val
  | bool (b : Bool) : Val
  | num (n : Int) : Val
  | str (s : String) : Val
  | arr (elems : List Val) : Val
  | obj (fields : List (String × Val)) : Val

/-- JavaScript truthiness: `undefined`, `null`, `false`, `0` and `""` are
falsy; every other value (in particular every array and object reference) is
truthy. -/
def jsTruthy : Val → Bool
  | .undefined => false
  | .null => false
  | .bool b => b
  | .num n => n != 0
  | .str s => s != ""
  | .arr _ => true
  | .obj _ => true

/-- JavaScript strict equality `===` restricted to the modelled values.
Primitives compare structurally; arrays and objects compare by reference, and
two composite values are modelled as distinct references (see the header). -/
def jsStrictEq : Val → Val → Bool
  | .undefined, .undefined => true
  | .null, .null => true
  | .bool a, .bool b => a == b
  | .num a, .num b => a == b
  | .str a, .str b => a == b
  | _, _ => false

/-- Lookup in an insertion-ordered string-keyed map (JavaScript `Map.get`):
the first entry with the key. -/
def mapLookup {κ α : Type} [BEq κ] (m : List (κ × α)) (k : κ) : Option α :=
  (m.find? (fun p => p.1 == k)).map (fun p => p.2)

/-- Update in an insertion-ordered string-keyed map (JavaScript `Map.set`):
replace in place if the key is present, else append. -/
def mapSet {κ α : Type} [BEq κ] : List (κ × α) → κ → α → List (κ × α)
  | [], k, v => [(k, v)]
  | (k0, v0) :: r, k, v =>
      if k0 == k then (k0, v) :: r else (k0, v0) :: mapSet r k v

/-- A template context: identifier-to-value mapping.  The first matching
entry wins, so a merge where the right operand overrides is written by
listing the right operand first. -/
abbrev Ctx : Type := List (String × Val)

/-- Context lookup (first entry wins). -/
def ctxLookup (ctx : Ctx) (k : String) : Option Val :=
  mapLookup ctx k

/-- The context built by `processTemplate`: the JavaScript spread
`{ ...props, ...state }` (part_004 line 849 and line 473).  The later spread
wins on key collision, so `state` is listed first. -/
def mergeCtx (props state : Ctx) : Ctx :=
  state ++ props

/-- The per-iteration context of the loop pass (part_004 line 869):
`{ ...context, [itemName]: item, index, $item: item }`.  Later object-literal
entries win, so they are listed in reverse. -/
def augmentCtx (ctx : Ctx) (itemName : String) (item : Val) (index : Nat) : Ctx :=
  ("$item", item) :: ("index", .num (Int.ofNat index)) :: (itemName, item) :: ctx

/-- The fragment of JavaScript expressions the template claims exercise.
`evaluateExpression` (part_004 lines 888-900) hands the expression text to
`new Function` with the context keys as parameters; the claims use only
identifier lookups and literal values, modelled here.  An identifier that is
not a context key raises a `ReferenceError` inside the generated function. -/
inductive Expr where
  | lit (v : Val) : Expr
  | var (name : String) : Expr

/-- Evaluation of the generated function body: `some v` on success, `none`
when the evaluation throws (unbound identifier → `ReferenceError`). -/
def evalExprRaw (e : Expr) (ctx : Ctx) : Option Val :=
  match e with
  | .lit v => some v
  | .var n => ctxLookup ctx n

/-- `evaluateExpression` (part_004 lines 888-900): evaluate the expression
against the context; any thrown error is caught, a warning is logged, and
`false` is returned. -/
def evaluateExpression (e : Expr) (ctx : Ctx) : Val :=
  match evalExprRaw e ctx with
  | some v => v
  | none => .bool false

/-- `1` when evaluating `e` logs the "Expression evaluation error" warning
(part_004 line 897), `0` otherwise. -/
def evalWarnCount (e : Expr) (ctx : Ctx) : Nat :=
  match evalExprRaw e ctx with
  | some _ => 0
  | none => 1

/-- `String(value)` for the modelled values (primitive cases; composites go
through `JSON.stringify` in `jsToString` and never reach this branch). -/
def jsStringOfPrim : Val → String
  | .undefined => "undefined"
  | .null => "null"
  | .bool b => if b then "true" else "false"
  | .num n => toString n
  | .str s => s
  | .arr _ => ""
  | .obj _ => ""

/-- The one-step substitution engine: replace every (non-overlapping,
left-to-right) occurrence of `pat` in the input by `rep`, continuing the
scan after each replacement, as `String.prototype.replace` with a global
pattern does.  Written over character lists so that it is structural; `skip`
counts input characters still to drop after a match was consumed. -/
def scanReplace (pat rep : List Char) : Nat → List Char → List Char
  | _, [] => []
  | Nat.succ k, _ :: rest => scanReplace pat rep k rest
  | 0, c :: rest =>
      if pat.isPrefixOf (c :: rest) then
        rep ++ scanReplace pat rep (pat.length - 1) rest
      else
        c :: scanReplace pat rep 0 rest

/-- Replace every occurrence of the literal pattern `pat` by `rep`
(`String.prototype.replace` with a global pattern). -/
def replaceAll (s pat rep : String) : String :=
  ⟨scanReplace pat.data rep.data 0 s.data⟩

/-- Minimal JSON string escaping (backslash, then double quote) as performed
by `JSON.stringify` on the characters occurring in the claims. -/
def jsonEscape (s : String) : String :=
  replaceAll (replaceAll s "\\" "\\\\") "\"" "\\\""

mutual

/-- `JSON.stringify` restricted to the modelled values.  `undefined` and
function values serialize to `null` inside arrays; object fields are emitted
in insertion order. -/
def jsonStringify : Val → String
  | .undefined => "null"
  | .null => "null"
  | .bool b => if b then "true" else "false"
  | .num n => toString n
  | .str s => "\"" ++ jsonEscape s ++ "\""
  | .arr elems => "[" ++ jsonStringifyList elems ++ "]"
  | .obj fields => "\x7b" ++ jsonStringifyFields fields ++ "\x7d"

def jsonStringifyList : List Val → String
  | [] => ""
  | [v] => jsonStringify v
  | v :: r => jsonStringify v ++ "," ++ jsonStringifyList r

def jsonStringifyFields : List (String × Val) → String
  | [] => ""
  | [(k, v)] => "\"" ++ jsonEscape k ++ "\":" ++ jsonStringify v
  | (k, v) :: r =>
      "\"" ++ jsonEscape k ++ "\":" ++ jsonStringify v ++ "," ++ jsonStringifyFields r

end

/-- The string form a substituted variable takes (part_004 lines 880-881 and
html-components.js lines 476-477): `null`/`undefined` become the empty
string, objects and arrays serialize via `JSON.stringify`, everything else
via `String(...)`. -/
def jsToString : Val → String
  | .undefined => ""
  | .null => ""
  | .arr elems => jsonStringify (.arr elems)
  | .obj fields => jsonStringify (.obj fields)
  | v => jsStringOfPrim v

namespace Enhanced

/-- A well-nested template node of the Enhanced template engine
(part_004 lines 845-886): literal text, a `{{name}}` placeholder, a
`{{if expr}}...{{/if}}` block, or a `{{each expr as name}}...{{/each}}`
block. -/
inductive TNode where
  | text (s : String) : TNode
  | var (name : String) : TNode
  | ifBlock (cond : Expr) (body : List TNode) : TNode
  | eachBlock (arrExpr : Expr) (itemName : String) (body : List TNode) : TNode

mutual

/-- Pass 1 of `processTemplate` (part_004 lines 852-860): the conditional
pass.  Every conditional block, at any depth of the template string, is
replaced by its body when the condition evaluates truthy and by nothing when
it evaluates falsy or throws (the throw is caught inside
`evaluateExpression`, which returns `false`). -/
def condPassN (ctx : Ctx) : TNode → List TNode
  | .text s => [.text s]
  | .var n => [.var n]
  | .ifBlock c body =>
      if jsTruthy (evaluateExpression c ctx) then condPassL ctx body else []
  | .eachBlock e x body => [.eachBlock e x (condPassL ctx body)]

def condPassL (ctx : Ctx) : List TNode → List TNode
  | [] => []
  | n :: r => condPassN ctx n ++ condPassL ctx r

end

mutual

/-- Warnings logged during pass 1: one "Expression evaluation error" warning
per conditional whose expression throws (part_004 line 897).  The body of a
falsy or failing conditional is discarded without evaluating the
conditionals inside it. -/
def condWarnN (ctx : Ctx) : TNode → Nat
  | .text _ => 0
  | .var _ => 0
  | .ifBlock c body =>
      evalWarnCount c ctx +
        (if jsTruthy (evaluateExpression c ctx) then condWarnL ctx body else 0)
  | .eachBlock _ _ body => condWarnL ctx body

def condWarnL (ctx : Ctx) : List TNode → Nat
  | [] => 0
  | n :: r => condWarnN ctx n + condWarnL ctx r

end

mutual

/-- Passes 2 and 3 of `processTemplate` (part_004 lines 862-884) over a
template from which pass 1 has already removed every conditional block: the
loop pass followed by variable substitution.  A loop block whose expression
evaluates to an array expands to the body rendered once per element under
`augmentCtx` (the source re-enters `processTemplate(content, itemContext, {})`;
the re-entered conditional pass is the identity on the conditional-free body,
see `condPassL_eq_of_noIf`); any other evaluation result — including a thrown
evaluation error, caught inside `evaluateExpression` — yields the empty
string.  A placeholder whose identifier is a context key becomes the value's
string form; an unmatched placeholder stays literal text. -/
def renderN (ctx : Ctx) : TNode → String
  | .text s => s
  | .var n =>
      match ctxLookup ctx n with
      | some v => jsToString v
      | none => "\x7b\x7b" ++ n ++ "\x7d\x7d"
  | .ifBlock _ _ => ""
  | .eachBlock e x body =>
      match evaluateExpression e ctx with
      | .arr items => renderEach ctx x body items 0
      | _ => ""

/-- One rendered iteration per array element, in order, carrying the running
`index` (the source's `array.map((item, index) => ...)` joined with `""`). -/
def renderEach (ctx : Ctx) (x : String) (body : List TNode) :
    List Val → Nat → String
  | [], _ => ""
  | item :: rest, i =>
      renderL (augmentCtx ctx x item i) body ++ renderEach ctx x body rest (i + 1)

def renderL (ctx : Ctx) : List TNode → String
  | [] => ""
  | n :: r => renderN ctx n ++ renderL ctx r

end

/-- The full Enhanced expansion against an already-merged context: pass 1
(conditionals) followed by passes 2 and 3 (loops, then variables). -/
def expandAt (ctx : Ctx) (nodes : List TNode) : String :=
  renderL ctx (condPassL ctx nodes)

/-- `processTemplate(template, props, state)` of the Enhanced variant
(part_004 lines 845-886): build the context `{ ...props, ...state }`, then
run the conditional pass, the loop pass and variable substitution in that
order. -/
def processTemplate (nodes : List TNode) (props state : Ctx) : String :=
  expandAt (mergeCtx props state) nodes

/-- Warnings logged by the conditional pass of `processTemplate`. -/
def processWarnCount (nodes : List TNode) (props state : Ctx) : Nat :=
  condWarnL (mergeCtx props state) nodes

mutual

/-- `true` when no conditional block occurs anywhere in the node. -/
def noIfN : TNode → Bool
  | .text _ => true
  | .var _ => true
  | .ifBlock _ _ => false
  | .eachBlock _ _ body => noIfL body

def noIfL : List TNode → Bool
  | [] => true
  | n :: r => noIfN n && noIfL r

end

mutual

theorem condPassN_eq_of_noIf (ctx : Ctx) (n : TNode) (h : noIfN n = true) :
    condPassN ctx n = [n] := by
  cases n with
  | text s => rfl
  | var m => rfl
  | ifBlock c body => simp [noIfN] at h
  | eachBlock e x body =>
      simp only [noIfN] at h
      simp [condPassN, condPassL_eq_of_noIf ctx body h]

theorem condPassL_eq_of_noIf (ctx : Ctx) (ns : List TNode) (h : noIfL ns = true) :
    condPassL ctx ns = ns := by
  cases ns with
  | nil => rfl
  | cons n r =>
      simp only [noIfL, Bool.and_eq_true] at h
      simp [condPassL, condPassN_eq_of_noIf ctx n h.1, condPassL_eq_of_noIf ctx r h.2]

end

theorem noIfL_append (a b : List TNode) :
    noIfL (a ++ b) = (noIfL a && noIfL b) := by
  induction a with
  | nil => simp [noIfL]
  | cons n r ih => simp [noIfL, ih, Bool.and_assoc]

mutual

theorem noIf_condPassN (ctx : Ctx) (n : TNode) : noIfL (condPassN ctx n) = true := by
  cases n with
  | text s => rfl
  | var m => rfl
  | ifBlock c body =>
      simp only [condPassN]
      by_cases h : jsTruthy (evaluateExpression c ctx) = true
      · simp [h, noIf_condPassL ctx body]
      · simp [Bool.not_eq_true] at h
        simp [h, noIfL]
  | eachBlock e x body =>
      simp [condPassN, noIfL, noIfN, noIf_condPassL ctx body]

theorem noIf_condPassL (ctx : Ctx) (ns : List TNode) : noIfL (condPassL ctx ns) = true := by
  cases ns with
  | nil => rfl
  | cons n r =>
      simp [condPassL, noIfL_append, noIf_condPassN ctx n, noIf_condPassL ctx r]

end

theorem condPassL_append (ctx : Ctx) (a b : List TNode) :
    condPassL ctx (a ++ b) = condPassL ctx a ++ condPassL ctx b := by
  induction a with
  | nil => simp [condPassL]
  | cons n r ih => simp [condPassL, ih]

theorem renderL_append (ctx : Ctx) (a b : List TNode) :
    renderL ctx (a ++ b) = renderL ctx a ++ renderL ctx b := by
  induction a with
  | nil => simp [renderL]
  | cons n r ih => simp [renderL, ih, String.append_assoc]

end Enhanced

namespace StateSys

/-- A subscriber callback registered through `stateSystem.subscribe`
(part_004 lines 711-717).  `id` identifies the callback; `throwsOn new old`
models whether invoking it with these arguments throws (the source catches
and logs such exceptions, part_004 lines 687-691). -/
structure Listener where
  id : Nat
  throwsOn : Val → Val → Bool

/-- One delivered subscriber invocation: which callback was called, with
which `(newValue, oldValue)` pair, and whether it threw (and was caught). -/
structure Notif where
  id : Nat
  newVal : Val
  oldVal : Val
  threw : Bool

/-- The compute function of a computed entry (`computeFn(...values)`,
part_004 line 741), applied to the dependency values in order. -/
abbrev ComputeFn : Type := List Val → Val

/-- The reactive state store `stateSystem` (part_004 lines 660-842):
`states` holds current values, `listeners` the subscriber sets, and
`computedDeps` the dependency lists of computed entries.  The DOM-facing
steps of `set` (`updateBoundElements` and `updateComponentTemplates`,
part_004 lines 702-708) act only on the document, never on these three
maps, and are omitted. -/
structure Store where
  states : List (String × Val)
  listeners : List (String × List Listener)
  computedDeps : List (String × List String)

/-- The store before any operation. -/
def emptyStore : Store := { states := [], listeners := [], computedDeps := [] }

/-- `stateSystem.create(name, initialValue)` (part_004 lines 665-670):
stores the value and installs an empty subscriber set, silently overwriting
either if present. -/
def create (sys : Store) (name : String) (initialValue : Val) : Store :=
  { sys with
      states := mapSet sys.states name initialValue
      listeners := mapSet sys.listeners name [] }

/-- `stateSystem.get(name)` (part_004 lines 672-674): `Map.get`, which is
`undefined` for an absent name. -/
def get (sys : Store) (name : String) : Val :=
  (mapLookup sys.states name).getD .undefined

/-- `stateSystem.subscribe(name, callback)` (part_004 lines 711-717): adds
the callback to the subscriber set when one exists for `name` (i.e. after a
`create`); otherwise it is a silent no-op. -/
def subscribe (sys : Store) (name : String) (l : Listener) : Store :=
  match mapLookup sys.listeners name with
  | some ls => { sys with listeners := mapSet sys.listeners name (ls ++ [l]) }
  | none => sys

/-- `stateSystem.updateComputed(name, computeFn)` (part_004 lines 734-744).
When called without a function (as `set` does), the source falls back to
`this.computedDeps.get(name + '_fn')`; nothing in the library ever stores a
key ending in `'_fn'`, so that lookup yields either nothing or a dependency
list, and a dependency list fails the `typeof computedFn === 'function'`
check — hence no recomputation happens in that case. -/
def updateComputed (sys : Store) (name : String) (computeFn : Option ComputeFn) :
    Store :=
  match mapLookup sys.computedDeps name with
  | none => sys
  | some deps =>
      let values := deps.map (fun dep => get sys dep)
      match computeFn with
      | some f => { sys with states := mapSet sys.states name (f values) }
      | none => sys

/-- `stateSystem.computed(name, deps, computeFn)` (part_004 lines 727-732):
record the dependency list, then compute once immediately.  The compute
function itself is never stored anywhere. -/
def computed (sys : Store) (name : String) (deps : List String)
    (computeFn : ComputeFn) : Store :=
  let sys1 := { sys with computedDeps := mapSet sys.computedDeps name deps }
  updateComputed sys1 name (some computeFn)

/-- `stateSystem.set(name, value)` (part_004 lines 676-709).  Returns the
updated store together with the list of subscriber invocations that were
delivered, in order.  If the stored value is strictly equal to the new one
the call returns immediately (no store change, no invocation).  Otherwise
the value is stored, every subscriber for `name` is invoked exactly once
with `(value, oldValue)` — an invocation that throws is caught and logged,
and delivery continues with the remaining subscribers — and then every
computed entry whose dependency list contains `name` is recomputed via
`updateComputed(compName)` (which, lacking a compute function, leaves the
store unchanged; see `updateComputed`).  The two DOM-update steps that
follow in the source are outside the store and omitted. -/
def set (sys : Store) (name : String) (value : Val) : Store × List Notif :=
  let oldValue := get sys name
  if jsStrictEq oldValue value then (sys, [])
  else
    let sys1 := { sys with states := mapSet sys.states name value }
    let notifs :=
      ((mapLookup sys1.listeners name).getD []).map
        (fun l => Notif.mk l.id value oldValue (l.throwsOn value oldValue))
    let sys2 := sys1.computedDeps.foldl
      (fun acc p => if p.2.contains name then updateComputed acc p.1 none else acc)
      sys1
    (sys2, notifs)

/-- Recomputation inside `set` never changes the store: `updateComputed`
without a compute function is the identity. -/
theorem updateComputed_none (sys : Store) (name : String) :
    updateComputed sys name none = sys := by
  unfold updateComputed
  cases mapLookup sys.computedDeps name <;> rfl

theorem computedFold_id (sys : Store) (name : String)
    (l : List (String × List String)) :
    l.foldl (fun acc p => if p.2.contains name then updateComputed acc p.1 none else acc)
      sys = sys := by
  induction l generalizing sys with
  | nil => rfl
  | cons p r ih =>
      simp only [List.foldl_cons]
      by_cases h : p.2.contains name = true
      · simp [h, updateComputed_none, ih]
      · rw [if_neg (by simpa using h), ih]

end StateSys

namespace HC

/-- `processTemplate(template, props)` of the base variant
(html-components.js lines 471-481): for each context entry in order,
replace every `\x7b\x7bkey\x7d\x7d` placeholder by the value's string form
(`jsToString`).  The model covers the spaceless placeholder spelling (the
source regex also allows inner whitespace).  The early return for an empty
context coincides with folding over the empty list. -/
def processTemplate (template : String) (props : Ctx) : String :=
  props.foldl
    (fun result p =>
      replaceAll result ("\x7b\x7b" ++ p.1 ++ "\x7d\x7d") (jsToString p.2))
    template

/-- The outcome `fetch(componentPath)` settles with: the response status
flag, code, text and body.  (A network-level rejection, as opposed to a
non-success status, is not needed by the claims and is not modelled.) -/
structure FetchResp where
  ok : Bool
  status : Nat
  statusText : String
  text : String

/-- An observable effect of the loader, in order of occurrence: a network
fetch being issued for a path, or markup being written into an element. -/
inductive Ev where
  | fetch (path : String) : Ev
  | write (element : Nat) (content : String) : Ev
deriving DecidableEq

/-- The browser collaborators of the loader: the fetch function, the
`querySelectorAll('[data-component]')` discovery that maps freshly written
markup to the (element, path) pairs of nested component references found in
it, and `document.querySelector` for selector-form definitions. -/
structure LoadEnv where
  fetchFn : String → FetchResp
  nestedOf : String → List (Nat × String)
  selectorFn : String → Option Nat

/-- The mutable state the claims observe: the file cache with its enabled
flag, the loading-guard set `loadingComponents`, the DOM (element id →
innerHTML), a fresh-element counter for `document.createElement`, and the
trace of observable effects.  File-cache entries carry only their content;
the source also stores a creation timestamp which nothing reads back. -/
structure World where
  fileCache : List (String × String)
  fileCacheEnabled : Bool
  loading : List String
  dom : List (Nat × String)
  nextId : Nat
  trace : List Ev

/-- `fileCache.get(key)` (html-components.js lines 289-297): `null` when
disabled or absent, modelled as `none`. -/
def fileCacheGetW (w : World) (k : String) : Option String :=
  if w.fileCacheEnabled then mapLookup w.fileCache k else none

/-- `fileCache.set(key, content)` (html-components.js lines 282-287): a
no-op when disabled. -/
def fileCacheSetW (w : World) (k v : String) : World :=
  if w.fileCacheEnabled then { w with fileCache := mapSet w.fileCache k v } else w

/-- `element.innerHTML = content`: full replacement of the element's
content, recorded in the trace. -/
def domWrite (w : World) (element : Nat) (content : String) : World :=
  { w with
      dom := mapSet w.dom element content
      trace := w.trace ++ [Ev.write element content] }

/-- The visible error block written into the target on a failed load
(html-components.js lines 399-402); the inline style attribute of the
source's `div` is elided. -/
def errorFragment (componentPath message : String) : String :=
  "<div><strong>Component Load Error:</strong> " ++ componentPath ++
    "<br><small>" ++ message ++ "</small></div>"

/-- `loadComponentIntoElement(element, componentPath, props)`
(html-components.js lines 354-405).  Returns the settled result — `.ok
(some content)` for a resolved load (the source resolves with the cached or
freshly processed markup), `.ok none` for the guard-suppressed re-entrant
case (the source resolves with `undefined`), `.error message` for a
rejection — together with the final world.

Step by step, following the source: a path already in the guard set returns
immediately (a warning is logged; nothing else happens).  Otherwise the path
is added to the guard set and the file cache is consulted; a truthy cached
content is template-processed and written into the element, else the path is
fetched — a non-`ok` response throws `HTTP <status>: <statusText>`, which
the final `.catch` turns into a guard-set removal, an `errorFragment` DOM
write and a rejection; a successful fetch's text is template-processed, the
processed markup is stored in the file cache and written into the element.
In both non-error branches the nested component references discovered in the
newly written markup are then loaded through the same pipeline (each nested
failure is caught individually; the model runs them in list order), the
guard-set entry is removed and the promise resolves.  `bindEventHandlers`
and `executeScripts` act on the document only and are omitted; `fuel` bounds
the nested-load recursion depth and is an artifact of the embedding (a
run out of fuel returns the world unchanged). -/
def loadComponentIntoElement :
    Nat → LoadEnv → World → Nat → String → Ctx →
      Except String (Option String) × World
  | 0, _, w, _, _, _ => (.ok none, w)
  | Nat.succ fuel, env, w, element, componentPath, props =>
    if w.loading.contains componentPath then
      (.ok none, w)
    else
      let w1 := { w with loading := componentPath :: w.loading }
      let cachedContent := (fileCacheGetW w1 componentPath).getD ""
      if cachedContent != "" then
        let rendered := processTemplate cachedContent props
        let w2 := domWrite w1 element rendered
        let w3 := (env.nestedOf rendered).foldl
          (fun acc ep => (loadComponentIntoElement fuel env acc ep.1 ep.2 []).2) w2
        let w4 := { w3 with loading := w3.loading.erase componentPath }
        (.ok (some cachedContent), w4)
      else
        let resp := env.fetchFn componentPath
        let wf := { w1 with trace := w1.trace ++ [Ev.fetch componentPath] }
        if resp.ok then
          let html := processTemplate resp.text props
          let wc := fileCacheSetW wf componentPath html
          let w2 := domWrite wc element html
          let w3 := (env.nestedOf html).foldl
            (fun acc ep => (loadComponentIntoElement fuel env acc ep.1 ep.2 []).2) w2
          let w4 := { w3 with loading := w3.loading.erase componentPath }
          (.ok (some html), w4)
        else
          let message := "HTTP " ++ toString resp.status ++ ": " ++ resp.statusText
          let we := { wf with loading := wf.loading.erase componentPath }
          let w2 := domWrite we element (errorFragment componentPath message)
          (.error message, w2)

/-- A component definition as `processComponentDefinition` destructures it
(html-components.js line 632): a bare resource path, or an object with a
component `name` (the path to load), an optional target `selector`, `props`,
an optional `condition` (the source also accepts a zero-argument predicate,
which it calls; the claims use plain values), an optional `layout` (whose
tag/class/id only shape the freshly created element and are carried here as
an opaque string) and `children`.  The `css`/`id` fields only touch the
element's class list and id attribute and are omitted; an absent `children`
key and an empty list behave identically. -/
inductive CompDef where
  | path (s : String) : CompDef
  | obj (name : String) (selector : Option String) (props : Ctx)
        (condition : Option Val) (layout : Option String)
        (children : List CompDef) : CompDef

mutual

/-- `processComponentDefinition(comp, target)` (html-components.js lines
625-655).  A string is loaded straight into the target.  For an object: a
present-and-falsy condition returns a resolved promise before anything else
happens; otherwise a `layout` creates a fresh element appended to the
target (its class/id decoration is omitted), else a `selector` resolves via
`document.querySelector` with the target as fallback; the component `name`
is loaded into that element, and — only if that load resolves — the
`children` are processed into the same element (`Promise.allSettled`,
modelled in list order; the settled aggregate resolves with a record list,
modelled `.ok none`).  A rejected parent load skips the children and
propagates. -/
def processComponentDefinition (fuel : Nat) (env : LoadEnv) (w : World)
    (target : Nat) :
    CompDef → Except String (Option String) × World
  | .path s => loadComponentIntoElement fuel env w target s []
  | .obj name selector props condition layout children =>
    if (match condition with | some c => !jsTruthy c | none => false) then
      (.ok none, w)
    else
      let pair :=
        match layout with
        | some _ =>
            (w.nextId,
             { w with nextId := w.nextId + 1, dom := mapSet w.dom w.nextId "" })
        | none =>
          match selector with
          | some sel => ((env.selectorFn sel).getD target, w)
          | none => (target, w)
      let res := loadComponentIntoElement fuel env pair.2 pair.1 name props
      match res.1 with
      | .error e => (.error e, res.2)
      | .ok v =>
        if children.isEmpty then (.ok v, res.2)
        else (.ok none, processDefList fuel env res.2 pair.1 children)

/-- The `components.map(comp => processComponentDefinition(comp, target))`
fold of `buildPageFromComponents` (html-components.js line 615) and the
`children.map(...)` of a definition's children (line 654), awaited with
`Promise.allSettled` — individual failures do not stop the remaining
definitions; the model runs them in list order. -/
def processDefList (fuel : Nat) (env : LoadEnv) (w : World) (element : Nat) :
    List CompDef → World
  | [] => w
  | c :: r =>
      processDefList fuel env
        (processComponentDefinition fuel env w element c).2 element r

end

mutual

/-- The `Val` a component definition denotes for `JSON.stringify` (absent
optional keys are omitted, as `stringify` omits `undefined`-valued
properties; field order follows the destructuring order of the source). -/
def valOfDef : CompDef → Val
  | .path s => .str s
  | .obj name selector props condition layout children =>
      .obj ([("name", Val.str name)]
        ++ (match selector with | some s => [("selector", Val.str s)] | none => [])
        ++ [("props", Val.obj props)]
        ++ (match condition with | some c => [("condition", c)] | none => [])
        ++ (match layout with | some s => [("layout", Val.str s)] | none => [])
        ++ (match children with
            | [] => ([] : List (String × Val))
            | cs => [("children", Val.arr (valOfDefs cs))]))

def valOfDefs : List CompDef → List Val
  | [] => []
  | c :: r => valOfDef c :: valOfDefs r

end

/-- `JSON.stringify(components)` for a component-definition list. -/
def jsonOfDefs (cs : List CompDef) : String :=
  jsonStringify (.arr (valOfDefs cs))

/-- A page definition as `buildPageFromComponents` consumes it
(html-components.js lines 594-597): either a bare array of component
definitions, or an object carrying a `components` list and an optional
explicit `cacheKey` (its `title`/`description`/`styles` metadata does not
enter the cache key and is omitted here). -/
inductive PageDef where
  | arr (cs : List CompDef) : PageDef
  | obj (components : List CompDef) (cacheKey : Option String) : PageDef

/-- `Array.isArray(pageDef) ? pageDef : pageDef.components || []`. -/
def pageComponents : PageDef → List CompDef
  | .arr cs => cs
  | .obj cs _ => cs

/-- The effective page-cache key of `buildPageFromComponents`
(html-components.js line 597):
`pageDef.cacheKey || JSON.stringify(components).substring(0, 50)`.
An array-form definition has no `cacheKey` property; an explicit empty
string is falsy and falls back to the derived key.  `targetElement` is the
build's target argument (line 587); it is in scope but never enters the
computation. -/
def pageCacheKeyOf (pageDef : PageDef) (targetElement : String) : String :=
  let derived : String := ⟨(jsonOfDefs (pageComponents pageDef)).data.take 50⟩
  match pageDef with
  | .arr _ => derived
  | .obj _ none => derived
  | .obj _ (some key) => if key = "" then derived else key

end HC

theorem mapLookup_mapSet_self {κ α : Type} [BEq κ] [LawfulBEq κ]
    (m : List (κ × α)) (k : κ) (v : α) :
    mapLookup (mapSet m k v) k = some v := by
  induction m with
  | nil => simp [mapSet, mapLookup, List.find?]
  | cons h0 r ih =>
      obtain ⟨k0, v0⟩ := h0
      by_cases hk : k0 == k
      · simp [mapSet, hk, mapLookup, List.find?, eq_of_beq hk]
      · simp only [mapSet, hk, Bool.false_eq_true, if_false]
        simpa [mapLookup, List.find?, hk] using ih

theorem mapLookup_mapSet_ne {κ α : Type} [BEq κ] [LawfulBEq κ]
    (m : List (κ × α)) (k : κ) (v : α) (p : κ) (h : p ≠ k) :
    mapLookup (mapSet m k v) p = mapLookup m p := by
  induction m with
  | nil =>
      have hkp : (k == p) = false := by
        simp only [beq_eq_false_iff_ne]
        exact fun he => h he.symm
      simp [mapSet, mapLookup, List.find?, hkp]
  | cons h0 r ih =>
      obtain ⟨k0, v0⟩ := h0
      by_cases hk : (k0 == k) = true
      · have hk0 : k0 = k := eq_of_beq hk
        have hkp : (k0 == p) = false := by
          simp only [beq_eq_false_iff_ne]
          rw [hk0]
          exact fun he => h he.symm
        simp [mapSet, hk, mapLookup, List.find?, hkp]
      · have hk2 : (k0 == k) = false := by simpa using hk
        by_cases hp0 : (k0 == p) = true
        · simp [mapSet, hk2, mapLookup, List.find?, hp0]
        · have hp2 : (k0 == p) = false := by simpa using hp0
          simp only [mapSet, hk2, Bool.false_eq_true, if_false]
          simpa [mapLookup, List.find?, hp2] using ih

namespace HC

/-- While a path sits in the loading-guard set, no load of any path can
touch its file-cache entry, remove it from the guard set, or flip the cache
enablement: a load writes the cache only under its own path, and a load for
the guarded path itself returns at the guard check before doing anything. -/
theorem load_preserves_guarded (p : String) :
    ∀ (fuel : Nat) (env : LoadEnv) (w : World) (e : Nat) (q : String) (props : Ctx),
      p ∈ w.loading →
      mapLookup (loadComponentIntoElement fuel env w e q props).2.fileCache p =
          mapLookup w.fileCache p ∧
        p ∈ (loadComponentIntoElement fuel env w e q props).2.loading ∧
        (loadComponentIntoElement fuel env w e q props).2.fileCacheEnabled =
          w.fileCacheEnabled := by
  intro fuel
  induction fuel with
  | zero => intro env w e q props hp; exact ⟨rfl, hp, rfl⟩
  | succ fuel ih =>
      intro env w e q props hp
      have foldlem : ∀ (l : List (Nat × String)) (w0 : World),
          p ∈ w0.loading →
          mapLookup (l.foldl
              (fun acc ep => (loadComponentIntoElement fuel env acc ep.1 ep.2 []).2)
              w0).fileCache p = mapLookup w0.fileCache p ∧
            p ∈ (l.foldl
              (fun acc ep => (loadComponentIntoElement fuel env acc ep.1 ep.2 []).2)
              w0).loading ∧
            (l.foldl
              (fun acc ep => (loadComponentIntoElement fuel env acc ep.1 ep.2 []).2)
              w0).fileCacheEnabled = w0.fileCacheEnabled := by
        intro l
        induction l with
        | nil => intro w0 hp0; exact ⟨rfl, hp0, rfl⟩
        | cons ep r ihl =>
            intro w0 hp0
            obtain ⟨h1, h2, h3⟩ := ih env w0 ep.1 ep.2 [] hp0
            obtain ⟨g1, g2, g3⟩ :=
              ihl (loadComponentIntoElement fuel env w0 ep.1 ep.2 []).2 h2
            exact ⟨g1.trans h1, g2, g3.trans h3⟩
      simp only [loadComponentIntoElement]
      split_ifs with h1 h2 h3
      · exact ⟨rfl, hp, rfl⟩
      all_goals
        have hqp : q ≠ p := by
          intro he
          subst he
          exact h1 (by simpa using hp)
      · obtain ⟨f1, f2, f3⟩ :=
          foldlem _ (domWrite { w with loading := q :: w.loading } e
            (processTemplate
              ((fileCacheGetW { w with loading := q :: w.loading } q).getD "") props))
            (by simpa [domWrite] using List.mem_cons_of_mem q hp)
        refine ⟨f1.trans (by simp [domWrite]), ?_, f3.trans (by simp [domWrite])⟩
        exact (List.mem_erase_of_ne (fun he => hqp he.symm)).mpr f2
      · obtain ⟨f1, f2, f3⟩ :=
          foldlem _ (domWrite
            (fileCacheSetW { w with loading := q :: w.loading, trace := w.trace ++ [Ev.fetch q] }
              q (processTemplate (env.fetchFn q).text props))
            e (processTemplate (env.fetchFn q).text props))
            (by
              by_cases hen : w.fileCacheEnabled <;>
                simp [domWrite, fileCacheSetW, hen, List.mem_cons_of_mem q hp])
        refine ⟨f1.trans ?_, ?_, f3.trans ?_⟩
        · by_cases hen : w.fileCacheEnabled
        
          · simp only [domWrite, fileCacheSetW, hen, if_true]
            exact mapLookup_mapSet_ne _ q _ p (fun he => hqp he.symm)
          · simp [domWrite, fileCacheSetW, hen]
        · exact (List.mem_erase_of_ne (fun he => hqp he.symm)).mpr f2
        · by_cases hen : w.fileCacheEnabled <;> simp [domWrite, fileCacheSetW, hen]
      · refine ⟨by simp [domWrite], ?_, by simp [domWrite]⟩
        have hm : p ∈ ((q :: w.loading).erase q) :=
          (List.mem_erase_of_ne (fun he => hqp he.symm)).mpr (List.mem_cons_of_mem q hp)
        simpa [domWrite] using hm

end HC

namespace HC

theorem fileCacheSetW_trace (w : World) (k v : String) :
    (fileCacheSetW w k v).trace = w.trace := by
  unfold fileCacheSetW; split <;> rfl

theorem fileCacheSetW_loading (w : World) (k v : String) :
    (fileCacheSetW w k v).loading = w.loading := by
  unfold fileCacheSetW; split <;> rfl

theorem fileCacheSetW_dom (w : World) (k v : String) :
    (fileCacheSetW w k v).dom = w.dom := by
  unfold fileCacheSetW; split <;> rfl

/-- Every step of the loader only appends to the effect trace: whatever a
load does, the world it returns carries the original trace as a prefix. -/
theorem load_trace_mono :
    ∀ (fuel : Nat) (env : LoadEnv) (w : World) (e : Nat) (q : String) (props : Ctx),
      ∃ t, (loadComponentIntoElement fuel env w e q props).2.trace = w.trace ++ t := by
  intro fuel
  induction fuel with
  | zero => intro env w e q props; exact ⟨[], by simp [loadComponentIntoElement]⟩
  | succ fuel ih =>
      intro env w e q props
      have foldlem : ∀ (l : List (Nat × String)) (w0 : World),
          ∃ t, (l.foldl
              (fun acc ep => (loadComponentIntoElement fuel env acc ep.1 ep.2 []).2)
              w0).trace = w0.trace ++ t := by
        intro l
        induction l with
        | nil => intro w0; exact ⟨[], by simp⟩
        | cons ep r ihl =>
            intro w0
            obtain ⟨t1, h1⟩ := ih env w0 ep.1 ep.2 []
            obtain ⟨t2, h2⟩ := ihl (loadComponentIntoElement fuel env w0 ep.1 ep.2 []).2
            refine ⟨t1 ++ t2, ?_⟩
            simp only [List.foldl_cons]
            rw [h2, h1, List.append_assoc]
      simp only [loadComponentIntoElement]
      split_ifs with h1 h2 h3
      · exact ⟨[], by simp⟩
      · obtain ⟨t, ht⟩ := foldlem (env.nestedOf
            (processTemplate ((fileCacheGetW { w with loading := q :: w.loading } q).getD "") props))
          (domWrite { w with loading := q :: w.loading } e
            (processTemplate ((fileCacheGetW { w with loading := q :: w.loading } q).getD "") props))
        refine ⟨[Ev.write e
            (processTemplate ((fileCacheGetW { w with loading := q :: w.loading } q).getD "") props)]
            ++ t, ?_⟩
        rw [ht]
        simp [domWrite]
      · obtain ⟨t, ht⟩ := foldlem (env.nestedOf (processTemplate (env.fetchFn q).text props))
          (domWrite
            (fileCacheSetW { w with loading := q :: w.loading, trace := w.trace ++ [Ev.fetch q] }
              q (processTemplate (env.fetchFn q).text props))
            e (processTemplate (env.fetchFn q).text props))
        refine ⟨[Ev.fetch q, Ev.write e (processTemplate (env.fetchFn q).text props)] ++ t, ?_⟩
        rw [ht]
        have hs := fileCacheSetW_trace
          { w with loading := q :: w.loading, trace := w.trace ++ [Ev.fetch q] }
          q (processTemplate (env.fetchFn q).text props)
        simp [domWrite, hs]
      · refine ⟨[Ev.fetch q,
          Ev.write e (errorFragment q
            ("HTTP " ++ toString (env.fetchFn q).status ++ ": " ++ (env.fetchFn q).statusText))], ?_⟩
        simp [domWrite]

mutual

/-- Definition processing only appends to the effect trace. -/
theorem processDef_trace_mono (fuel : Nat) (env : LoadEnv) (w : World)
    (target : Nat) (d : CompDef) :
    ∃ t, (processComponentDefinition fuel env w target d).2.trace = w.trace ++ t := by
  cases d with
  | path s =>
      simpa [processComponentDefinition] using load_trace_mono fuel env w target s []
  | obj name selector props condition layout children =>
      by_cases h1 : (match condition with | some c => !jsTruthy c | none => false) = true
      · exact ⟨[], by simp [processComponentDefinition, h1]⟩
      · have key : ∀ (w1 : World) (el : Nat), w1.trace = w.trace →
            ∃ t, ((match (loadComponentIntoElement fuel env w1 el name props).1 with
              | Except.error e0 =>
                  ((Except.error e0 : Except String (Option String)),
                    (loadComponentIntoElement fuel env w1 el name props).2)
              | Except.ok v =>
                  if children.isEmpty then
                    (Except.ok v, (loadComponentIntoElement fuel env w1 el name props).2)
                  else
                    (Except.ok none,
                      processDefList fuel env
                        (loadComponentIntoElement fuel env w1 el name props).2 el
                        children)).2).trace = w.trace ++ t := by
          intro w1 el htr
          obtain ⟨t1, ht1⟩ := load_trace_mono fuel env w1 el name props
          rcases hres : (loadComponentIntoElement fuel env w1 el name props).1 with e0 | v
          · refine ⟨t1, ?_⟩
            show (loadComponentIntoElement fuel env w1 el name props).2.trace = w.trace ++ t1
            rw [ht1, htr]
          · by_cases hch : children.isEmpty = true
            · refine ⟨t1, ?_⟩
              show (if children.isEmpty = true then
                  ((Except.ok v : Except String (Option String)),
                    (loadComponentIntoElement fuel env w1 el name props).2)
                else
                  (Except.ok none,
                    processDefList fuel env
                      (loadComponentIntoElement fuel env w1 el name props).2 el
                      children)).2.trace = w.trace ++ t1
              rw [if_pos hch]
              show (loadComponentIntoElement fuel env w1 el name props).2.trace = w.trace ++ t1
              rw [ht1, htr]
            · obtain ⟨t2, ht2⟩ := processDefList_trace_mono fuel env
                (loadComponentIntoElement fuel env w1 el name props).2 el children
              refine ⟨t1 ++ t2, ?_⟩
              show (if children.isEmpty = true then
                  ((Except.ok v : Except String (Option String)),
                    (loadComponentIntoElement fuel env w1 el name props).2)
                else
                  (Except.ok none,
                    processDefList fuel env
                      (loadComponentIntoElement fuel env w1 el name props).2 el
                      children)).2.trace = w.trace ++ (t1 ++ t2)
              rw [if_neg hch]
              show (processDefList fuel env
                (loadComponentIntoElement fuel env w1 el name props).2 el children).trace =
                  w.trace ++ (t1 ++ t2)
              rw [ht2, ht1, htr, List.append_assoc]
        cases layout with
        | some l0 =>
            simpa [processComponentDefinition, h1] using
              key { w with nextId := w.nextId + 1, dom := mapSet w.dom w.nextId "" }
                w.nextId rfl
        | none =>
            cases selector with
            | some sel =>
                simpa [processComponentDefinition, h1] using
                  key w ((env.selectorFn sel).getD target) rfl
            | none => simpa [processComponentDefinition, h1] using key w target rfl

theorem processDefList_trace_mono (fuel : Nat) (env : LoadEnv) (w : World)
    (element : Nat) (l : List CompDef) :
    ∃ t, (processDefList fuel env w element l).trace = w.trace ++ t := by
  cases l with
  | nil => exact ⟨[], by simp [processDefList]⟩
  | cons c r =>
      obtain ⟨t1, ht1⟩ := processDef_trace_mono fuel env w element c
      obtain ⟨t2, ht2⟩ := processDefList_trace_mono fuel env
        (processComponentDefinition fuel env w element c).2 element r
      refine ⟨t1 ++ t2, ?_⟩
      simp only [processDefList]
      rw [ht2, ht1, List.append_assoc]

end

end HC

namespace Enhanced

/-- Modelled from the spec: the expansion a loop block is claimed to
produce — "the body is expanded once per element with a context augmented by
`{name: element, index: position, $item: element}`" — i.e. the full template
expansion (`expandAt`) of the body under `augmentCtx`, concatenated over the
elements in order, carrying the running index. -/
def specEachExpansion (ctx : Ctx) (x : String) (body : List TNode) :
    List Val → Nat → String
  | [], _ => ""
  | item :: rest, i =>
      expandAt (augmentCtx ctx x item i) body ++ specEachExpansion ctx x body rest (i + 1)

/-- On a conditional-free body, the code's per-element iteration coincides
with the spec's: the re-entered conditional pass is the identity. -/
theorem renderEach_eq_spec (ctx : Ctx) (x : String) (body : List TNode)
    (h : noIfL body = true) :
    ∀ (items : List Val) (i : Nat),
      renderEach ctx x body items i = specEachExpansion ctx x body items i := by
  intro items
  induction items with
  | nil => intro i; simp [renderEach, specEachExpansion]
  | cons item rest ih =>
      intro i
      simp only [renderEach, specEachExpansion, expandAt,
        condPassL_eq_of_noIf (augmentCtx ctx x item i) body h]
      rw [ih (i + 1)]

theorem ctxLookup_mergeCtx_left (props state : Ctx) (k : String) (v : Val)
    (h : ctxLookup state k = some v) :
    ctxLookup (mergeCtx props state) k = some v := by
  simp only [ctxLookup, mergeCtx, mapLookup] at h ⊢
  rw [List.find?_append]
  rcases hf : state.find? (fun p => p.1 == k) with _ | p
  · simp [hf] at h
  · simpa [hf] using h

theorem ctxLookup_mergeCtx_right (props state : Ctx) (k : String) (v : Val)
    (hn : ctxLookup state k = none) (h : ctxLookup props k = some v) :
    ctxLookup (mergeCtx props state) k = some v := by
  simp only [ctxLookup, mergeCtx, mapLookup] at hn h ⊢
  rw [List.find?_append]
  rcases hf : state.find? (fun p => p.1 == k) with _ | p
  · simpa [hf] using h
  · simp [hf] at hn

end Enhanced

/-- C5: For every conditional block and every context: a truthy condition
expands the block to its body (the remainder of the template is unaffected),
a falsy condition expands it to the empty string, and a condition whose
evaluation throws is caught inside `evaluateExpression` — the block expands
to the empty string, the "Expression evaluation error" warning is logged,
and expansion returns normally (it is a total function; no exception escapes
`processTemplate`). -/
theorem c5_conditional_expansion (ctx : Ctx) (c : Expr)
    (body rest : List Enhanced.TNode) :
    (jsTruthy (evaluateExpression c ctx) = true →
      Enhanced.expandAt ctx (.ifBlock c body :: rest) =
        Enhanced.expandAt ctx (body ++ rest)) ∧
    (jsTruthy (evaluateExpression c ctx) = false →
      Enhanced.expandAt ctx (.ifBlock c body :: rest) = Enhanced.expandAt ctx rest) ∧
    (evalExprRaw c ctx = none →
      Enhanced.expandAt ctx (.ifBlock c body :: rest) = Enhanced.expandAt ctx rest ∧
        1 ≤ Enhanced.condWarnL ctx (.ifBlock c body :: rest)) := by
  refine ⟨?_, ?_, ?_⟩
  · intro h
    simp [Enhanced.expandAt, Enhanced.condPassL, Enhanced.condPassN, h,
      Enhanced.condPassL_append]
  · intro h
    simp [Enhanced.expandAt, Enhanced.condPassL, Enhanced.condPassN, h]
  · intro h
    have hf : jsTruthy (evaluateExpression c ctx) = false := by
      simp [evaluateExpression, h, jsTruthy]
    refine ⟨by simp [Enhanced.expandAt, Enhanced.condPassL, Enhanced.condPassN, hf], ?_⟩
    simp [Enhanced.condWarnL, Enhanced.condWarnN, evalWarnCount, h, hf]

/-- Witness for C5 at concrete inputs: a true condition keeps the body, an
unbound identifier (evaluation throws) yields the empty string plus a logged
warning. -/
theorem c5_conditional_expansion_witness :
    jsTruthy (evaluateExpression (.var "p") [("p", .bool true)]) = true ∧
    Enhanced.expandAt [("p", .bool true)]
      [.ifBlock (.var "p") [.text "B"], .text "!"] = "B!" ∧
    evalExprRaw (.var "q") [("p", .bool true)] = none ∧
    Enhanced.expandAt [("p", .bool true)]
      [.ifBlock (.var "q") [.text "B"], .text "!"] = "!" ∧
    1 ≤ Enhanced.condWarnL [("p", .bool true)]
      [.ifBlock (.var "q") [.text "B"], .text "!"] := by
  have h1 : jsTruthy (evaluateExpression (.var "p") [("p", .bool true)]) = true := by
    rfl
  have h2 : evalExprRaw (.var "q") [("p", .bool true)] = none := by
    simp [evalExprRaw, ctxLookup, mapLookup, List.find?]
  refine ⟨h1, ?_, h2, ?_, ?_⟩
  · rw [(c5_conditional_expansion [("p", .bool true)] (.var "p")
      [.text "B"] [.text "!"]).1 h1]
    simp [Enhanced.expandAt, Enhanced.condPassL, Enhanced.condPassN,
      Enhanced.renderL, Enhanced.renderN]
  · rw [((c5_conditional_expansion [("p", .bool true)] (.var "q")
      [.text "B"] [.text "!"]).2.2 h2).1]
    simp [Enhanced.expandAt, Enhanced.condPassL, Enhanced.condPassN,
      Enhanced.renderL, Enhanced.renderN]
  · exact ((c5_conditional_expansion [("p", .bool true)] (.var "q")
      [.text "B"] [.text "!"]).2.2 h2).2

/-- C6 (counterexample): the claim fails for a loop body containing a
conditional block that refers to the loop variable.  The conditional pass
runs over the whole template before the loop pass, so the condition `x` is
evaluated against the outer context — where `x` is unbound, the evaluation
throws, and the block is removed — before the loop ever binds `x`.  Over
`items = [1]` the code expands `\x7b\x7beach items as x\x7d\x7d\x7b\x7bif
x\x7d\x7dHI\x7b\x7b/if\x7d\x7d\x7b\x7b/each\x7d\x7d` to `""`, while "the
body expanded once per element with the loop name bound to the element"
(`specEachExpansion`) yields `"HI"`. -/
theorem c6_loop_expansion_counterexample :
    Enhanced.processTemplate
      [.eachBlock (.var "items") "x" [.ifBlock (.var "x") [.text "HI"]]]
      [("items", .arr [.num 1])] [] = "" ∧
    Enhanced.specEachExpansion (mergeCtx [("items", .arr [.num 1])] []) "x"
      [.ifBlock (.var "x") [.text "HI"]] [.num 1] 0 = "HI" ∧
    ("" : String) ≠ "HI" := by
  refine ⟨?_, ?_, by decide⟩
  · simp [Enhanced.processTemplate, Enhanced.expandAt, Enhanced.condPassL,
      Enhanced.condPassN, Enhanced.renderL, Enhanced.renderN, Enhanced.renderEach,
      mergeCtx, ctxLookup, mapLookup, List.find?, evaluateExpression, evalExprRaw,
      jsTruthy, augmentCtx]
  · simp [Enhanced.specEachExpansion, Enhanced.expandAt, Enhanced.condPassL,
      Enhanced.condPassN, Enhanced.renderL, Enhanced.renderN,
      mergeCtx, ctxLookup, mapLookup, List.find?, evaluateExpression, evalExprRaw,
      jsTruthy, augmentCtx]

/-- C6 (amended): for every loop block whose body contains no conditional
block, an expression evaluating to a sequence of n elements expands the
block to the body expanded once per element with the loop name bound to the
element, `index` to its position starting at 0 and `$item` to the element
(`specEachExpansion`); an empty sequence, a non-sequence result, or a failed
evaluation (caught inside `evaluateExpression`) expands it to the empty
string.  (Conditional blocks inside loop bodies are resolved by the earlier
conditional pass against the outer context, where the loop name is not yet
bound — see the counterexample.) -/
theorem c6_loop_expansion (ctx : Ctx) (e : Expr) (x : String)
    (body : List Enhanced.TNode) (items : List Val) :
    (Enhanced.noIfL body = true → evaluateExpression e ctx = .arr items →
      Enhanced.expandAt ctx [.eachBlock e x body] =
        Enhanced.specEachExpansion ctx x body items 0) ∧
    (evaluateExpression e ctx = .arr [] →
      Enhanced.expandAt ctx [.eachBlock e x body] = "") ∧
    ((∀ vs : List Val, evaluateExpression e ctx ≠ .arr vs) →
      Enhanced.expandAt ctx [.eachBlock e x body] = "") ∧
    (evalExprRaw e ctx = none →
      Enhanced.expandAt ctx [.eachBlock e x body] = "") := by
  refine ⟨?_, ?_, ?_, ?_⟩
  · intro hno harr
    simp only [Enhanced.expandAt, Enhanced.condPassL, Enhanced.condPassN,
      Enhanced.renderL, Enhanced.renderN, List.append_nil,
      Enhanced.condPassL_eq_of_noIf ctx body hno, harr]
    rw [Enhanced.renderEach_eq_spec ctx x body hno items 0]
    exact String.append_empty _
  · intro harr
    simp [Enhanced.expandAt, Enhanced.condPassL, Enhanced.condPassN,
      Enhanced.renderL, Enhanced.renderN, Enhanced.renderEach, harr]
  · intro hne
    simp only [Enhanced.expandAt, Enhanced.condPassL, Enhanced.condPassN,
      Enhanced.renderL, Enhanced.renderN, List.append_nil]
    rcases hv : evaluateExpression e ctx with _ | _ | b | n | s | vs | fs
    · rfl
    · rfl
    · rfl
    · rfl
    · rfl
    · exact absurd hv (hne vs)
    · rfl
  · intro hraw
    have hv : evaluateExpression e ctx = .bool false := by
      simp [evaluateExpression, hraw]
    simp [Enhanced.expandAt, Enhanced.condPassL, Enhanced.condPassN,
      Enhanced.renderL, Enhanced.renderN, hv]

/-- Witness for C6 at the spec's concrete scenario: over `[a, b, c]` the
body is expanded three times with the loop name bound to each element and
`index` = 0, 1, 2; over `[]` the block expands to the empty string. -/
theorem c6_loop_expansion_witness :
    Enhanced.noIfL
        [Enhanced.TNode.text "(", .var "x", .text ":", .var "index", .text ")"] = true ∧
    evaluateExpression (.var "list")
        [("list", .arr [.str "a", .str "b", .str "c"])] =
      .arr [.str "a", .str "b", .str "c"] ∧
    Enhanced.expandAt [("list", .arr [.str "a", .str "b", .str "c"])]
      [.eachBlock (.var "list") "x"
        [.text "(", .var "x", .text ":", .var "index", .text ")"]] =
      "(a:0)(b:1)(c:2)" ∧
    evaluateExpression (.lit (.arr [])) [] = .arr [] ∧
    Enhanced.expandAt []
      [.eachBlock (.lit (.arr [])) "x"
        [.text "(", .var "x", .text ":", .var "index", .text ")"]] = "" := by
  have hno : Enhanced.noIfL
      [Enhanced.TNode.text "(", .var "x", .text ":", .var "index", .text ")"] = true := by
    simp [Enhanced.noIfL, Enhanced.noIfN]
  have harr : evaluateExpression (.var "list")
      [("list", .arr [.str "a", .str "b", .str "c"])] =
        .arr [.str "a", .str "b", .str "c"] := by rfl
  have hempty : evaluateExpression (.lit (.arr [])) [] = .arr [] := by rfl
  refine ⟨hno, harr, ?_, hempty, ?_⟩
  · rw [(c6_loop_expansion [("list", .arr [.str "a", .str "b", .str "c"])]
      (.var "list") "x" _ [.str "a", .str "b", .str "c"]).1 hno harr]
    simp [Enhanced.specEachExpansion, Enhanced.expandAt, Enhanced.condPassL,
      Enhanced.condPassN, Enhanced.renderL, Enhanced.renderN, augmentCtx,
      ctxLookup, mapLookup, List.find?, jsToString, jsStringOfPrim]
    decide
  · exact (c6_loop_expansion [] (.lit (.arr [])) "x" _ []).2.1 hempty

/-- C2 (counterexample): on a key present in both, the merged context
`{ ...props, ...state }` takes the state value, not the props value: with
`props = \x7ba: "p"\x7d` and `state = \x7ba: "s"\x7d`, both variable
substitution and expression evaluation yield `"s"` where the claim predicts
`"p"`. -/
theorem c2_context_merge_counterexample :
    Enhanced.processTemplate [.var "a"] [("a", .str "p")] [("a", .str "s")] = "s" ∧
    evaluateExpression (.var "a") (mergeCtx [("a", .str "p")] [("a", .str "s")]) =
      .str "s" ∧
    ("s" : String) ≠ "p" := by
  refine ⟨?_, by rfl, by decide⟩
  simp [Enhanced.processTemplate, Enhanced.expandAt, Enhanced.condPassL,
    Enhanced.condPassN, Enhanced.renderL, Enhanced.renderN, mergeCtx,
    ctxLookup, mapLookup, List.find?, jsToString, jsStringOfPrim]

/-- C2 (amended): the context used by template expansion is the state
mapping merged over the supplied props (`{ ...props, ...state }`), and on
any key present in both, the state value — not the props value — is the one
used for substitution and expression evaluation; a key present only in
props is read from props. -/
theorem c2_context_merge (props state : Ctx) (k : String) (v : Val) :
    (ctxLookup state k = some v →
      ctxLookup (mergeCtx props state) k = some v ∧
      Enhanced.processTemplate [.var k] props state = jsToString v ∧
      evaluateExpression (.var k) (mergeCtx props state) = v) ∧
    (ctxLookup state k = none → ctxLookup props k = some v →
      ctxLookup (mergeCtx props state) k = some v ∧
      Enhanced.processTemplate [.var k] props state = jsToString v ∧
      evaluateExpression (.var k) (mergeCtx props state) = v) := by
  constructor
  · intro h
    have hm := Enhanced.ctxLookup_mergeCtx_left props state k v h
    refine ⟨hm, ?_, ?_⟩
    · simp [Enhanced.processTemplate, Enhanced.expandAt, Enhanced.condPassL,
        Enhanced.condPassN, Enhanced.renderL, Enhanced.renderN, hm]
    · simp [evaluateExpression, evalExprRaw, hm]
  · intro hn h
    have hm := Enhanced.ctxLookup_mergeCtx_right props state k v hn h
    refine ⟨hm, ?_, ?_⟩
    · simp [Enhanced.processTemplate, Enhanced.expandAt, Enhanced.condPassL,
        Enhanced.condPassN, Enhanced.renderL, Enhanced.renderN, hm]
    · simp [evaluateExpression, evalExprRaw, hm]

/-- Witness for C2 at concrete inputs: the colliding key reads the state
value, a props-only key reads the props value. -/
theorem c2_context_merge_witness :
    ctxLookup [("a", Val.str "s")] "a" = some (.str "s") ∧
    Enhanced.processTemplate [.var "a"] [("a", .str "p"), ("b", .str "q")]
      [("a", .str "s")] = "s" ∧
    ctxLookup [("a", Val.str "s")] "b" = none ∧
    ctxLookup [("a", Val.str "p"), ("b", Val.str "q")] "b" = some (.str "q") ∧
    Enhanced.processTemplate [.var "b"] [("a", .str "p"), ("b", .str "q")]
      [("a", .str "s")] = "q" := by
  have h1 : ctxLookup [("a", Val.str "s")] "a" = some (.str "s") := by rfl
  have h2 : ctxLookup [("a", Val.str "s")] "b" = none := by
    simp [ctxLookup, mapLookup, List.find?]
  have h3 : ctxLookup [("a", Val.str "p"), ("b", Val.str "q")] "b" =
      some (.str "q") := by rfl
  refine ⟨h1, ?_, h2, h3, ?_⟩
  · exact ((c2_context_merge [("a", .str "p"), ("b", .str "q")] [("a", .str "s")]
      "a" (.str "s")).1 h1).2.1
  · exact ((c2_context_merge [("a", .str "p"), ("b", .str "q")] [("a", .str "s")]
      "b" (.str "q")).2 h2 h3).2.1

/-- C7: `set(name, value)` with a value strictly equal to the stored value
returns before storing or notifying — zero subscriber calls and an unchanged
store; with a different value it stores it and invokes every subscriber for
`name` exactly once with `(newValue, oldValue)`, in registration order — a
callback that throws is caught and logged (recorded in the notification's
`threw` flag) and delivery continues, so the call still returns normally
with the value stored. -/
theorem c7_set_notifications (sys : StateSys.Store) (name : String) (value : Val) :
    (jsStrictEq (StateSys.get sys name) value = true →
      StateSys.set sys name value = (sys, [])) ∧
    (jsStrictEq (StateSys.get sys name) value = false →
      (StateSys.set sys name value).2 =
        ((mapLookup sys.listeners name).getD []).map
          (fun l => StateSys.Notif.mk l.id value (StateSys.get sys name)
            (l.throwsOn value (StateSys.get sys name))) ∧
      StateSys.get (StateSys.set sys name value).1 name = value) := by
  constructor
  · intro h
    simp [StateSys.set, h]
  · intro h
    constructor
    · simp [StateSys.set, h]
    · simp only [StateSys.set, h, Bool.false_eq_true, if_false,
        StateSys.computedFold_id]
      simp [StateSys.get, mapLookup_mapSet_self]

/-- Witness for C7 at the spec's concrete scenario: after `create("n", 1)`
with one subscriber, `set("n", 1)` triggers zero calls and `set("n", 2)`
triggers exactly one call with `(2, 1)`. -/
theorem c7_set_notifications_witness :
    jsStrictEq
        (StateSys.get (StateSys.subscribe
          (StateSys.create StateSys.emptyStore "n" (.num 1)) "n"
          ⟨0, fun _ _ => false⟩) "n") (.num 1) = true ∧
    StateSys.set (StateSys.subscribe
        (StateSys.create StateSys.emptyStore "n" (.num 1)) "n"
        ⟨0, fun _ _ => false⟩) "n" (.num 1) =
      (StateSys.subscribe (StateSys.create StateSys.emptyStore "n" (.num 1)) "n"
        ⟨0, fun _ _ => false⟩, []) ∧
    jsStrictEq
        (StateSys.get (StateSys.subscribe
          (StateSys.create StateSys.emptyStore "n" (.num 1)) "n"
          ⟨0, fun _ _ => false⟩) "n") (.num 2) = false ∧
    (StateSys.set (StateSys.subscribe
        (StateSys.create StateSys.emptyStore "n" (.num 1)) "n"
        ⟨0, fun _ _ => false⟩) "n" (.num 2)).2 =
      [⟨0, .num 2, .num 1, false⟩] ∧
    StateSys.get (StateSys.set (StateSys.subscribe
        (StateSys.create StateSys.emptyStore "n" (.num 1)) "n"
        ⟨0, fun _ _ => false⟩) "n" (.num 2)).1 "n" = .num 2 := by
  have h1 : jsStrictEq
      (StateSys.get (StateSys.subscribe
        (StateSys.create StateSys.emptyStore "n" (.num 1)) "n"
        ⟨0, fun _ _ => false⟩) "n") (.num 1) = true := by rfl
  have h2 : jsStrictEq
      (StateSys.get (StateSys.subscribe
        (StateSys.create StateSys.emptyStore "n" (.num 1)) "n"
        ⟨0, fun _ _ => false⟩) "n") (.num 2) = false := by rfl
  refine ⟨h1, (c7_set_notifications _ "n" (.num 1)).1 h1, h2, ?_, ?_⟩
  · exact ((c7_set_notifications _ "n" (.num 2)).2 h2).1.trans (by rfl)
  · exact ((c7_set_notifications _ "n" (.num 2)).2 h2).2

/-- C8 (counterexample): `set` auto-vivifies.  On a store where `create`
was never called for `"x"`, `get("x")` reads `undefined`; but
`set("x", 5)` finds `oldValue === undefined ≠ 5`, stores the value, and a
subsequent `get("x")` reads `5` — the claim says it would continue to read
`undefined`. -/
theorem c8_no_autovivify_counterexample :
    StateSys.get StateSys.emptyStore "x" = .undefined ∧
    StateSys.get (StateSys.set StateSys.emptyStore "x" (.num 5)).1 "x" = .num 5 ∧
    Val.num 5 ≠ .undefined := by
  exact ⟨rfl, rfl, fun h => Val.noConfusion h⟩

/-- C8 (amended): `get` on a name never created and never set reads
`undefined`, and no "name not found" error is raised anywhere; but state
entries are not only created by `create` — `set(name, value)` on an unknown
name with a value not strictly equal to `undefined` brings the entry into
existence storing the value (with zero subscriber calls, since no subscriber
set exists without a `create`), while `set(name, undefined)` on an unknown
name remains a no-op. -/
theorem c8_set_vivifies (sys : StateSys.Store) (name : String) (v : Val) :
    (mapLookup sys.states name = none → StateSys.get sys name = .undefined) ∧
    (mapLookup sys.states name = none → jsStrictEq .undefined v = false →
      StateSys.get (StateSys.set sys name v).1 name = v ∧
      (mapLookup sys.listeners name = none → (StateSys.set sys name v).2 = [])) ∧
    (mapLookup sys.states name = none → jsStrictEq .undefined v = true →
      StateSys.set sys name v = (sys, [])) := by
  refine ⟨?_, ?_, ?_⟩
  · intro h
    simp [StateSys.get, h]
  · intro h hne
    have hget : StateSys.get sys name = .undefined := by simp [StateSys.get, h]
    constructor
    · simp only [StateSys.set, hget, hne, Bool.false_eq_true, if_false,
        StateSys.computedFold_id]
      simp [StateSys.get, mapLookup_mapSet_self]
    · intro hl
      simp [StateSys.set, hget, hne, hl]
  · intro h heq
    have hget : StateSys.get sys name = .undefined := by simp [StateSys.get, h]
    simp [StateSys.set, hget, heq]

/-- Witness for C8's amended statement on the empty store and `"x"`. -/
theorem c8_set_vivifies_witness :
    mapLookup StateSys.emptyStore.states "x" = none ∧
    jsStrictEq .undefined (.num 5) = false ∧
    mapLookup StateSys.emptyStore.listeners "x" = none ∧
    StateSys.get StateSys.emptyStore "x" = .undefined ∧
    StateSys.get (StateSys.set StateSys.emptyStore "x" (.num 5)).1 "x" = .num 5 ∧
    (StateSys.set StateSys.emptyStore "x" (.num 5)).2 = [] ∧
    jsStrictEq .undefined (.undefined) = true ∧
    StateSys.set StateSys.emptyStore "x" .undefined = (StateSys.emptyStore, []) := by
  have h1 : mapLookup StateSys.emptyStore.states "x" = none := by rfl
  have h2 : jsStrictEq .undefined (Val.num 5) = false := by rfl
  have h3 : mapLookup StateSys.emptyStore.listeners "x" = none := by rfl
  have h4 : jsStrictEq .undefined (Val.undefined) = true := by rfl
  refine ⟨h1, h2, h3, (c8_set_vivifies StateSys.emptyStore "x" (.num 5)).1 h1,
    ((c8_set_vivifies StateSys.emptyStore "x" (.num 5)).2.1 h1 h2).1,
    ((c8_set_vivifies StateSys.emptyStore "x" (.num 5)).2.1 h1 h2).2 h3, h4,
    (c8_set_vivifies StateSys.emptyStore "x" .undefined).2.2 h1 h4⟩

/-- C1: `computed("double", ["a"], x => x*2)` after `create("a", 3)` does
compute once immediately (`get("double") = 6`), but a later `set("a", 5)`
does not recompute it: `set` calls `updateComputed("double")` without the
compute function, and the fallback `computedDeps.get("double" + "_fn")`
finds nothing because `computed` never stores the function — so
`get("double")` still reads `6` where the claim (and the library's own
documentation: "Create derived state that updates automatically") requires
`fn` applied to the new dependency values, i.e. `10`. -/
theorem c1_computed_stale_after_set :
    StateSys.get
      (StateSys.computed (StateSys.create StateSys.emptyStore "a" (.num 3))
        "double" ["a"]
        (fun vs => match vs with | [Val.num n] => .num (n * 2) | _ => .undefined))
      "double" = .num 6 ∧
    StateSys.get
      (StateSys.set
        (StateSys.computed (StateSys.create StateSys.emptyStore "a" (.num 3))
          "double" ["a"]
          (fun vs => match vs with | [Val.num n] => .num (n * 2) | _ => .undefined))
        "a" (.num 5)).1 "a" = .num 5 ∧
    StateSys.get
      (StateSys.set
        (StateSys.computed (StateSys.create StateSys.emptyStore "a" (.num 3))
          "double" ["a"]
          (fun vs => match vs with | [Val.num n] => .num (n * 2) | _ => .undefined))
        "a" (.num 5)).1 "double" = .num 6 ∧
    Val.num 6 ≠ .num 10 := by
  refine ⟨rfl, rfl, rfl, ?_⟩
  intro h
  have h6 : (6 : Int) = 10 := Val.num.inj h
  exact absurd h6 (by decide)

/-- C10: a re-entrant load for a path already in the loading-guard set
returns at the guard check: it resolves successfully with `undefined`
(`.ok none`, never the component's content) and the world is returned
exactly as it was — no target write, no fetch, no cache entry, no error
fragment (only the "already loading" warning is logged, which the world
does not track). -/
theorem c10_guard_reentrant_load (fuel : Nat) (env : HC.LoadEnv) (w : HC.World)
    (e : Nat) (p : String) (props : Ctx) (h : p ∈ w.loading) :
    HC.loadComponentIntoElement (fuel + 1) env w e p props =
      (Except.ok none, w) := by
  simp only [HC.loadComponentIntoElement]
  rw [if_pos (show w.loading.contains p = true by simpa using h)]

/-- Witness for C10: with `"a.html"` in flight, a second load for it
resolves with `undefined` and changes nothing. -/
theorem c10_guard_reentrant_load_witness :
    "a.html" ∈ ["a.html"] ∧
    HC.loadComponentIntoElement 1
        { fetchFn := fun _ =>
            { ok := true, status := 200, statusText := "OK", text := "Hello" },
          nestedOf := fun _ => [], selectorFn := fun _ => none }
        { fileCache := [], fileCacheEnabled := true, loading := ["a.html"],
          dom := [], nextId := 0, trace := [] }
        0 "a.html" [] =
      (Except.ok none,
        { fileCache := [], fileCacheEnabled := true, loading := ["a.html"],
          dom := [], nextId := 0, trace := [] }) := by
  have h : "a.html" ∈ ["a.html"] := by decide
  exact ⟨h, c10_guard_reentrant_load 0 _ _ 0 "a.html" [] h⟩

/-- C3 (counterexample): the loader stores the template-expanded markup in
the File Cache, not the raw fetched text.  Fetching `"a.html"` whose raw
text is `"Hello \x7b\x7bname\x7d\x7d"` with props `\x7bname: "World"\x7d`
caches `"Hello World"`; a later load with props `\x7bname: "X"\x7d` then
re-processes the already-expanded cached text and writes `"Hello World"`
(not `"Hello X"`, which re-deriving from the raw template would give).
Also, on a 404 the rejection error's message is `"HTTP 404: Not Found"`,
which carries the status but not the path (the path appears only in the
error fragment written into the target). -/
theorem c3_cache_raw_text_counterexample :
    mapLookup (HC.loadComponentIntoElement 1
        { fetchFn := fun _ =>
            { ok := true, status := 200, statusText := "OK",
              text := "Hello \x7b\x7bname\x7d\x7d" },
          nestedOf := fun _ => [], selectorFn := fun _ => none }
        { fileCache := [], fileCacheEnabled := true, loading := [], dom := [],
          nextId := 0, trace := [] }
        0 "a.html" [("name", .str "World")]).2.fileCache "a.html" =
      some "Hello World" ∧
    ("Hello World" : String) ≠ "Hello \x7b\x7bname\x7d\x7d" ∧
    mapLookup (HC.loadComponentIntoElement 1
        { fetchFn := fun _ =>
            { ok := true, status := 200, statusText := "OK",
              text := "Hello \x7b\x7bname\x7d\x7d" },
          nestedOf := fun _ => [], selectorFn := fun _ => none }
        (HC.loadComponentIntoElement 1
          { fetchFn := fun _ =>
              { ok := true, status := 200, statusText := "OK",
                text := "Hello \x7b\x7bname\x7d\x7d" },
            nestedOf := fun _ => [], selectorFn := fun _ => none }
          { fileCache := [], fileCacheEnabled := true, loading := [], dom := [],
            nextId := 0, trace := [] }
          0 "a.html" [("name", .str "World")]).2
        0 "a.html" [("name", .str "X")]).2.dom 0 = some "Hello World" ∧
    HC.processTemplate "Hello \x7b\x7bname\x7d\x7d" [("name", .str "X")] =
      "Hello X" ∧
    (HC.loadComponentIntoElement 1
        { fetchFn := fun _ =>
            { ok := false, status := 404, statusText := "Not Found", text := "" },
          nestedOf := fun _ => [], selectorFn := fun _ => none }
        { fileCache := [], fileCacheEnabled := true, loading := [], dom := [],
          nextId := 0, trace := [] }
        0 "a.html" []).1 = Except.error "HTTP 404: Not Found" := by
  refine ⟨by decide, by decide, by decide, by decide, by rfl⟩

/-- C3 (amended): on a File-Cache miss whose fetch succeeds, the
template-expanded text `processTemplate(rawText, props)` — not the raw
fetched text — is stored in the File Cache under the resource path, and the
load resolves with that expanded text; a later load with different props
re-processes the cached expanded text rather than re-deriving from the raw
template.  A non-success response status rejects the load with an error
whose message carries the status (`HTTP <status>: <statusText>`), writes an
error fragment naming the path and that message into the target, and leaves
the cache entry for the path unchanged. -/
theorem c3_cache_stores_processed (fuel : Nat) (env : HC.LoadEnv)
    (w : HC.World) (e : Nat) (q : String) (props : Ctx)
    (hni : q ∉ w.loading)
    (hmiss : (HC.fileCacheGetW w q).getD "" = "")
    (hen : w.fileCacheEnabled = true) :
    ((env.fetchFn q).ok = true →
      (HC.loadComponentIntoElement (fuel + 1) env w e q props).1 =
        Except.ok (some (HC.processTemplate (env.fetchFn q).text props)) ∧
      mapLookup
          (HC.loadComponentIntoElement (fuel + 1) env w e q props).2.fileCache q =
        some (HC.processTemplate (env.fetchFn q).text props)) ∧
    ((env.fetchFn q).ok = false →
      (HC.loadComponentIntoElement (fuel + 1) env w e q props).1 =
        Except.error
          ("HTTP " ++ toString (env.fetchFn q).status ++ ": " ++
            (env.fetchFn q).statusText) ∧
      mapLookup
          (HC.loadComponentIntoElement (fuel + 1) env w e q props).2.dom e =
        some (HC.errorFragment q
          ("HTTP " ++ toString (env.fetchFn q).status ++ ": " ++
            (env.fetchFn q).statusText)) ∧
      mapLookup
          (HC.loadComponentIntoElement (fuel + 1) env w e q props).2.fileCache q =
        mapLookup w.fileCache q) := by
  have hni2 : ¬ (w.loading.contains q = true) := by simpa using hni
  have hmiss2 :
      ¬ (((HC.fileCacheGetW { w with loading := q :: w.loading } q).getD "" != "") = true) := by
    have : HC.fileCacheGetW { w with loading := q :: w.loading } q =
        HC.fileCacheGetW w q := rfl
    simp [this, hmiss]
  constructor
  · intro hok
    have foldlem : ∀ (l : List (Nat × String)) (w0 : HC.World),
        q ∈ w0.loading →
        mapLookup (l.foldl
            (fun acc ep => (HC.loadComponentIntoElement fuel env acc ep.1 ep.2 []).2)
            w0).fileCache q = mapLookup w0.fileCache q := by
      intro l
      induction l with
      | nil => intro w0 _; rfl
      | cons ep r ihl =>
          intro w0 hq0
          obtain ⟨h1, h2, _⟩ := HC.load_preserves_guarded q fuel env w0 ep.1 ep.2 [] hq0
          simp only [List.foldl_cons]
          exact (ihl (HC.loadComponentIntoElement fuel env w0 ep.1 ep.2 []).2 h2).trans h1
    simp only [HC.loadComponentIntoElement]
    rw [if_neg hni2, if_neg hmiss2, if_pos hok]
    refine ⟨rfl, ?_⟩
    have hq1 : q ∈ (HC.domWrite
        (HC.fileCacheSetW { w with loading := q :: w.loading, trace := w.trace ++ [HC.Ev.fetch q] }
          q (HC.processTemplate (env.fetchFn q).text props))
        e (HC.processTemplate (env.fetchFn q).text props)).loading := by
      simp [HC.domWrite, HC.fileCacheSetW_loading]
    have hf := foldlem (env.nestedOf (HC.processTemplate (env.fetchFn q).text props))
      (HC.domWrite
        (HC.fileCacheSetW { w with loading := q :: w.loading, trace := w.trace ++ [HC.Ev.fetch q] }
          q (HC.processTemplate (env.fetchFn q).text props))
        e (HC.processTemplate (env.fetchFn q).text props)) hq1
    refine hf.trans ?_
    show mapLookup (HC.fileCacheSetW
        { w with loading := q :: w.loading, trace := w.trace ++ [HC.Ev.fetch q] }
        q (HC.processTemplate (env.fetchFn q).text props)).fileCache q = _
    simp only [HC.fileCacheSetW, hen, if_true]
    exact mapLookup_mapSet_self _ q _
  · intro hbad
    have hok2 : ¬ ((env.fetchFn q).ok = true) := by simp [hbad]
    simp only [HC.loadComponentIntoElement]
    rw [if_neg hni2, if_neg hmiss2, if_neg hok2]
    refine ⟨rfl, ?_, rfl⟩
    simp only [HC.domWrite]
    exact mapLookup_mapSet_self _ e _

/-- Witness for C3's amended statement at concrete inputs: a successful
fetch caches and resolves with the processed text; a 404 rejects with the
status-carrying message, writes the error fragment, and leaves the cache
empty. -/
theorem c3_cache_stores_processed_witness :
    "a.html" ∉ ([] : List String) ∧
    (HC.fileCacheGetW
        { fileCache := [], fileCacheEnabled := true, loading := [], dom := [],
          nextId := 0, trace := [] } "a.html").getD "" = "" ∧
    (({ fetchFn := fun _ =>
              { ok := true, status := 200, statusText := "OK",
                text := "Hi \x7b\x7bwho\x7d\x7d" },
            nestedOf := fun _ => [], selectorFn := fun _ => none } :
        HC.LoadEnv).fetchFn "a.html").ok = true ∧
    (HC.loadComponentIntoElement 1
        { fetchFn := fun _ =>
            { ok := true, status := 200, statusText := "OK",
              text := "Hi \x7b\x7bwho\x7d\x7d" },
          nestedOf := fun _ => [], selectorFn := fun _ => none }
        { fileCache := [], fileCacheEnabled := true, loading := [], dom := [],
          nextId := 0, trace := [] }
        0 "a.html" [("who", .str "you")]).1 = Except.ok (some "Hi you") ∧
    mapLookup (HC.loadComponentIntoElement 1
        { fetchFn := fun _ =>
            { ok := true, status := 200, statusText := "OK",
              text := "Hi \x7b\x7bwho\x7d\x7d" },
          nestedOf := fun _ => [], selectorFn := fun _ => none }
        { fileCache := [], fileCacheEnabled := true, loading := [], dom := [],
          nextId := 0, trace := [] }
        0 "a.html" [("who", .str "you")]).2.fileCache "a.html" = some "Hi you" ∧
    (HC.loadComponentIntoElement 1
        { fetchFn := fun _ =>
            { ok := false, status := 404, statusText := "Not Found", text := "" },
          nestedOf := fun _ => [], selectorFn := fun _ => none }
        { fileCache := [], fileCacheEnabled := true, loading := [], dom := [],
          nextId := 0, trace := [] }
        0 "a.html" []).1 = Except.error "HTTP 404: Not Found" ∧
    mapLookup (HC.loadComponentIntoElement 1
        { fetchFn := fun _ =>
            { ok := false, status := 404, statusText := "Not Found", text := "" },
          nestedOf := fun _ => [], selectorFn := fun _ => none }
        { fileCache := [], fileCacheEnabled := true, loading := [], dom := [],
          nextId := 0, trace := [] }
        0 "a.html" []).2.dom 0 =
      some (HC.errorFragment "a.html" "HTTP 404: Not Found") := by
  have hni : "a.html" ∉ ([] : List String) := by decide
  have hmiss : (HC.fileCacheGetW
      { fileCache := [], fileCacheEnabled := true, loading := [], dom := [],
        nextId := 0, trace := [] } "a.html").getD "" = "" := by decide
  have hok : (({ fetchFn := fun _ =>
                   { ok := true, status := 200, statusText := "OK",
                     text := "Hi \x7b\x7bwho\x7d\x7d" },
                 nestedOf := fun _ => [], selectorFn := fun _ => none } :
      HC.LoadEnv).fetchFn "a.html").ok = true := by rfl
  have hgood := (c3_cache_stores_processed 0
    { fetchFn := fun _ =>
        { ok := true, status := 200, statusText := "OK",
          text := "Hi \x7b\x7bwho\x7d\x7d" },
      nestedOf := fun _ => [], selectorFn := fun _ => none }
    { fileCache := [], fileCacheEnabled := true, loading := [], dom := [],
      nextId := 0, trace := [] }
    0 "a.html" [("who", .str "you")] hni hmiss rfl).1 hok
  have hbadthm := (c3_cache_stores_processed 0
    { fetchFn := fun _ =>
        { ok := false, status := 404, statusText := "Not Found", text := "" },
      nestedOf := fun _ => [], selectorFn := fun _ => none }
    { fileCache := [], fileCacheEnabled := true, loading := [], dom := [],
      nextId := 0, trace := [] }
    0 "a.html" [] hni hmiss rfl).2 rfl
  refine ⟨hni, hmiss, hok, ?_, ?_, ?_, ?_⟩
  · exact hgood.1.trans (by rfl)
  · exact hgood.2.trans (by decide)
  · exact hbadthm.1.trans (by rfl)
  · exact hbadthm.2.1.trans (by decide)

/-- C4 (counterexample): the derived page-cache key never involves the
target, so the same definition built into two different targets shares a
key; and the derivation truncates the serialized definition to 50
characters, so two different definitions whose serializations agree on the
first 50 characters also share a key. -/
theorem c4_cache_key_counterexample :
    HC.pageCacheKeyOf (.arr [.path "a.html"]) "#x" =
      HC.pageCacheKeyOf (.arr [.path "a.html"]) "#y" ∧
    ("#x" : String) ≠ "#y" ∧
    HC.pageCacheKeyOf (.arr [.path "aaaaaaaaaaaaaaaaaaaaaaaaaaaaaaaaaaaaaaaaaaaaaaaaaaaaaaaaaaaa1"]) "#t" =
      HC.pageCacheKeyOf (.arr [.path "aaaaaaaaaaaaaaaaaaaaaaaaaaaaaaaaaaaaaaaaaaaaaaaaaaaaaaaaaaaa2"]) "#t" ∧
    HC.jsonOfDefs [.path "aaaaaaaaaaaaaaaaaaaaaaaaaaaaaaaaaaaaaaaaaaaaaaaaaaaaaaaaaaaa1"] ≠
      HC.jsonOfDefs [.path "aaaaaaaaaaaaaaaaaaaaaaaaaaaaaaaaaaaaaaaaaaaaaaaaaaaaaaaaaaaa2"] := by
  refine ⟨rfl, by decide, ?_, ?_⟩
  · simp only [HC.pageCacheKeyOf, HC.pageComponents, HC.jsonOfDefs, HC.valOfDefs,
      HC.valOfDef]
    simp [jsonStringify, jsonStringifyList, jsonEscape]
    decide
  · simp only [HC.jsonOfDefs, HC.valOfDefs, HC.valOfDef]
    simp [jsonStringify, jsonStringifyList, jsonEscape]
    decide

/-- C4 (amended): the effective page-cache key is the explicit `cacheKey`
when the definition carries a non-empty one; otherwise (array-form
definition, no `cacheKey`, or an explicit empty string, which is falsy) it
is the first 50 characters of `JSON.stringify` of the component list.  The
key never depends on the build's target. -/
theorem c4_effective_cache_key (d : HC.PageDef) (cs : List HC.CompDef)
    (k : String) (t1 t2 : String) :
    HC.pageCacheKeyOf d t1 = HC.pageCacheKeyOf d t2 ∧
    (k ≠ "" → HC.pageCacheKeyOf (.obj cs (some k)) t1 = k) ∧
    HC.pageCacheKeyOf (.obj cs none) t1 = ⟨(HC.jsonOfDefs cs).data.take 50⟩ ∧
    HC.pageCacheKeyOf (.arr cs) t1 = ⟨(HC.jsonOfDefs cs).data.take 50⟩ ∧
    HC.pageCacheKeyOf (.obj cs (some "")) t1 = ⟨(HC.jsonOfDefs cs).data.take 50⟩ := by
  refine ⟨?_, ?_, rfl, rfl, by simp [HC.pageCacheKeyOf, HC.pageComponents]⟩
  · cases d with
    | arr cs0 => rfl
    | obj cs0 k0 =>
        cases k0 with
        | none => rfl
        | some k1 => rfl
  · intro hk
    simp [HC.pageCacheKeyOf, hk]

/-- Witness for C4's amended statement: an explicit non-empty key wins; the
derived key of `["a.html"]` is its serialization (shorter than 50
characters) regardless of target. -/
theorem c4_effective_cache_key_witness :
    ("mykey" : String) ≠ "" ∧
    HC.pageCacheKeyOf (.obj [.path "a.html"] (some "mykey")) "#t" = "mykey" ∧
    HC.pageCacheKeyOf (.arr [.path "a.html"]) "#x" =
      HC.pageCacheKeyOf (.arr [.path "a.html"]) "#y" ∧
    HC.pageCacheKeyOf (.arr [.path "a.html"]) "#x" = "[\"a.html\"]" := by
  have hk : ("mykey" : String) ≠ "" := by decide
  refine ⟨hk,
    (c4_effective_cache_key (.arr []) [.path "a.html"] "mykey" "#t" "#t").2.1 hk,
    (c4_effective_cache_key (.arr [.path "a.html"]) [] "" "#x" "#y").1, ?_⟩
  refine ((c4_effective_cache_key (.arr []) [.path "a.html"] "" "#x" "#x").2.2.2.1).trans ?_
  simp only [HC.jsonOfDefs, HC.valOfDefs, HC.valOfDef]
  simp [jsonStringify, jsonStringifyList, jsonEscape]
  decide

/-- C9: (1) an object-form definition whose condition evaluates falsy is
skipped before anything happens — the world (DOM, caches, guard set, trace)
is returned exactly as it was, so neither the definition nor any of its
children causes a fetch or a DOM write; (2) for every definition, the trace
of processing it without its children is a prefix of the trace of processing
it with them — every child effect comes strictly after the parent's own
processing (the source only maps over `children` inside `promise.then`, i.e.
after the parent's load has committed its content); (3) at the spec's
scenario, building `["a.html", \x7btarget, condition: false, children:
["b.html"]\x7d]` fetches and writes only `a.html`, and `b.html` is never
fetched. -/
theorem c9_condition_gates_children (fuel : Nat) (env : HC.LoadEnv)
    (w : HC.World) (target : Nat) (name : String) (sel : Option String)
    (props : Ctx) (layout : Option String) (children : List HC.CompDef)
    (c : Val) (cond : Option Val) :
    (jsTruthy c = false →
      HC.processComponentDefinition fuel env w target
        (.obj name sel props (some c) layout children) = (Except.ok none, w)) ∧
    (∃ t,
      (HC.processComponentDefinition fuel env w target
        (.obj name sel props cond layout children)).2.trace =
      (HC.processComponentDefinition fuel env w target
        (.obj name sel props cond layout [])).2.trace ++ t) ∧
    (HC.processDefList 1
      { fetchFn := fun p =>
          { ok := true, status := 200, statusText := "OK",
            text := if p = "a.html" then "Hello" else "B" },
        nestedOf := fun _ => [], selectorFn := fun _ => none }
      { fileCache := [], fileCacheEnabled := true, loading := [], dom := [],
        nextId := 0, trace := [] }
      0
      [.path "a.html",
       .obj "" (some "#x") [] (some (.bool false)) none [.path "b.html"]]).trace =
      [HC.Ev.fetch "a.html", HC.Ev.write 0 "Hello"] ∧
    HC.Ev.fetch "b.html" ∉
      (HC.processDefList 1
        { fetchFn := fun p =>
            { ok := true, status := 200, statusText := "OK",
              text := if p = "a.html" then "Hello" else "B" },
          nestedOf := fun _ => [], selectorFn := fun _ => none }
        { fileCache := [], fileCacheEnabled := true, loading := [], dom := [],
          nextId := 0, trace := [] }
        0
        [.path "a.html",
         .obj "" (some "#x") [] (some (.bool false)) none [.path "b.html"]]).trace := by
  refine ⟨?_, ?_, by decide, by decide⟩
  · intro h
    simp [HC.processComponentDefinition, h]
  · by_cases h1 : (match cond with | some c0 => !jsTruthy c0 | none => false) = true
    · refine ⟨[], ?_⟩
      simp [HC.processComponentDefinition, h1]
    · have main : ∀ (pr : Nat × HC.World),
          ∃ t, ((match (HC.loadComponentIntoElement fuel env pr.2 pr.1 name props).1 with
            | Except.error e0 =>
                ((Except.error e0 : Except String (Option String)),
                  (HC.loadComponentIntoElement fuel env pr.2 pr.1 name props).2)
            | Except.ok v =>
                if children.isEmpty = true then
                  (Except.ok v,
                    (HC.loadComponentIntoElement fuel env pr.2 pr.1 name props).2)
                else
                  (Except.ok none,
                    HC.processDefList fuel env
                      (HC.loadComponentIntoElement fuel env pr.2 pr.1 name props).2
                      pr.1 children)).2).trace =
          ((match (HC.loadComponentIntoElement fuel env pr.2 pr.1 name props).1 with
            | Except.error e0 =>
                ((Except.error e0 : Except String (Option String)),
                  (HC.loadComponentIntoElement fuel env pr.2 pr.1 name props).2)
            | Except.ok v =>
                if ([] : List HC.CompDef).isEmpty = true then
                  (Except.ok v,
                    (HC.loadComponentIntoElement fuel env pr.2 pr.1 name props).2)
                else
                  (Except.ok none,
                    HC.processDefList fuel env
                      (HC.loadComponentIntoElement fuel env pr.2 pr.1 name props).2
                      pr.1 ([] : List HC.CompDef))).2).trace ++ t := by
        intro pr
        rcases hres : (HC.loadComponentIntoElement fuel env pr.2 pr.1 name props).1
          with e0 | v
        · exact ⟨[], by simp⟩
        · by_cases hch : children.isEmpty = true
          · refine ⟨[], ?_⟩
            show (if children.isEmpty = true then
                ((Except.ok v : Except String (Option String)),
                  (HC.loadComponentIntoElement fuel env pr.2 pr.1 name props).2)
              else
                (Except.ok none,
                  HC.processDefList fuel env
                    (HC.loadComponentIntoElement fuel env pr.2 pr.1 name props).2
                    pr.1 children)).2.trace =
              (HC.loadComponentIntoElement fuel env pr.2 pr.1 name props).2.trace ++ []
            rw [if_pos hch]
            simp
          · obtain ⟨t2, ht2⟩ := HC.processDefList_trace_mono fuel env
              (HC.loadComponentIntoElement fuel env pr.2 pr.1 name props).2
              pr.1 children
            refine ⟨t2, ?_⟩
            show (if children.isEmpty = true then
                ((Except.ok v : Except String (Option String)),
                  (HC.loadComponentIntoElement fuel env pr.2 pr.1 name props).2)
              else
                (Except.ok none,
                  HC.processDefList fuel env
                    (HC.loadComponentIntoElement fuel env pr.2 pr.1 name props).2
                    pr.1 children)).2.trace =
              (HC.loadComponentIntoElement fuel env pr.2 pr.1 name props).2.trace ++ t2
            rw [if_neg hch]
            exact ht2
      simp only [HC.processComponentDefinition]
      rw [if_neg h1, if_neg h1]
      exact main _

/-- Witness for C9 at a concrete falsy-condition definition: the world is
returned untouched. -/
theorem c9_condition_gates_children_witness :
    jsTruthy (.bool false) = false ∧
    HC.processComponentDefinition 1
      { fetchFn := fun _ =>
          { ok := true, status := 200, statusText := "OK", text := "B" },
        nestedOf := fun _ => [], selectorFn := fun _ => none }
      { fileCache := [], fileCacheEnabled := true, loading := [], dom := [],
        nextId := 0, trace := [] }
      0 (.obj "" (some "#x") [] (some (.bool false)) none [.path "b.html"]) =
      (Except.ok none,
        { fileCache := [], fileCacheEnabled := true, loading := [], dom := [],
          nextId := 0, trace := [] }) := by
  have h : jsTruthy (Val.bool false) = false := by rfl
  exact ⟨h, (c9_condition_gates_children 1
    { fetchFn := fun _ =>
        { ok := true, status := 200, statusText := "OK", text := "B" },
      nestedOf := fun _ => [], selectorFn := fun _ => none }
    { fileCache := [], fileCacheEnabled := true, loading := [], dom := [],
      nextId := 0, trace := [] }
    0 "" (some "#x") [] none [.path "b.html"] (.bool false) none).1 h⟩
